import Mathlib

/-!
Verification of the VCD waveform viewer core (parser, trace model,
temporal view, interaction controller) against its specification.

The Python source is shallowly embedded: machine floats are modelled as
exact rationals (all constants involved, such as 1.5 and 50.0, are exactly
representable in binary floating point), Python `int` as `Int`, Python
exceptions as `Except`, and the mutable object graph as explicit state
passing over a `WaveformData` record.
-/

namespace VCD

/-! ## Python primitives -/

/-- Python `int()` applied to a float/rational truncates toward zero
(`models.py` has no float-to-int casts; used by `canvas.py` `_time_to_x`). -/
def pyTrunc (q : ℚ) : ℤ := if 0 ≤ q then ⌊q⌋ else ⌈q⌉

/-- Python built-in `abs` on a float/rational. -/
def pyAbs (q : ℚ) : ℚ := if q < 0 then -q else q

/-- Character class of the regex `\w` (ASCII range, as in the source's inputs). -/
def isWordChar (c : Char) : Bool := c.isAlphanum || c = '_'

/-- Character class of the regex `\s`, restricted to the whitespace that can
occur inside a stripped line of the parsed files. -/
def isSpaceChar (c : Char) : Bool := c = ' ' || c = '\t'

/-- Python `str.strip()`: drop leading and trailing whitespace.  (Written on
character lists so that every proof below can evaluate it by kernel
reduction.) -/
def pyStripChars (cs : List Char) : List Char :=
  ((cs.dropWhile Char.isWhitespace).reverse.dropWhile Char.isWhitespace).reverse

/-- Python `str.strip()`. -/
def pyStrip (s : String) : String := (pyStripChars s.toList).asString

/-- Helper of `pySplit`: accumulate the current (reversed) word while
scanning. -/
def pySplitChars (cur : List Char) : List Char → List String
  | [] => if cur = [] then [] else [cur.reverse.asString]
  | c :: cs =>
    if c.isWhitespace then
      if cur = [] then pySplitChars [] cs else cur.reverse.asString :: pySplitChars [] cs
    else pySplitChars (c :: cur) cs

/-- Python `str.split()` with no argument: split on whitespace runs,
discarding empty pieces. -/
def pySplit (s : String) : List String := pySplitChars [] s.toList

/-- Whether a prefix of the second list equals the first. -/
def charsPrefix : List Char → List Char → Bool
  | [], _ => true
  | _ :: _, [] => false
  | p :: ps, c :: cs => p = c && charsPrefix ps cs

/-- Python `str.startswith`. -/
def pyStartsWith (s pre : String) : Bool := charsPrefix pre.toList s.toList

/-- Python slicing `s[n:]`. -/
def pyDrop (s : String) (n : Nat) : String := (s.toList.drop n).asString

/-- Value of a list of decimal digit characters. -/
def digitsToNat (cs : List Char) : Nat := cs.foldl (fun a c => 10 * a + (c.toNat - '0'.toNat)) 0

/-- Python `int(s)` on a decimal string: strips whitespace, allows one sign,
then requires a nonempty run of decimal digits.  (Underscore digit grouping,
accepted by Python, is not modelled; no claim exercises it.)  `none` models
the `ValueError` exception. -/
def pyInt (s : String) : Option ℤ :=
  let cs := (pyStrip s).toList
  match cs with
  | '-' :: rest =>
      if rest ≠ [] ∧ rest.all Char.isDigit then some (-(digitsToNat rest : ℤ)) else none
  | '+' :: rest =>
      if rest ≠ [] ∧ rest.all Char.isDigit then some (digitsToNat rest : ℤ) else none
  | _ => if cs ≠ [] ∧ cs.all Char.isDigit then some (digitsToNat cs : ℤ) else none

/-- Binary digit. -/
def isBinDigit (c : Char) : Bool := c = '0' || c = '1'

/-- Value of a list of binary digit characters. -/
def binDigitsToNat (cs : List Char) : Nat := cs.foldl (fun a c => 2 * a + (c.toNat - '0'.toNat)) 0

/-- Python `int(s, 2)`: strips whitespace, allows one sign, an optional
`0b`/`0B` prefix, then a nonempty run of binary digits.  `none` models the
`ValueError` exception. -/
def pyIntBase2 (s : String) : Option ℤ :=
  let cs := (pyStrip s).toList
  let signed : List Char → Option ℤ := fun body =>
    let body := match body with
      | '0' :: 'b' :: r => r
      | '0' :: 'B' :: r => r
      | r => r
    if body ≠ [] ∧ body.all isBinDigit then some (binDigitsToNat body : ℤ) else none
  match cs with
  | '-' :: rest => (signed rest).map (fun n => -n)
  | '+' :: rest => signed rest
  | _ => signed cs

/-- Python `str.upper()` for the ASCII strings that occur here. -/
def pyUpper (s : String) : String := (s.toList.map Char.toUpper).asString

/-- Stable insertion of an element into a list sorted by the boolean
comparison: placed before the first element it compares `le` to. -/
def orderedInsert (le : α → α → Bool) (a : α) : List α → List α
  | [] => [a]
  | b :: l => if le a b then a :: b :: l else b :: orderedInsert le a l

/-- Python's `list.sort`/`sorted` (a stable sort), modelled as stable
insertion sort. -/
def pySort (le : α → α → Bool) (l : List α) : List α := l.foldr (orderedInsert le) []

/-- Python `hex(n)[2:]`: for `n ≥ 0` the lowercase hex digits of `n`;
for `n < 0`, `hex(n)` is `-0x...` so dropping two characters leaves
`x` followed by the digits of `|n|`. -/
def hexRepr (n : ℤ) : String :=
  if 0 ≤ n then (Nat.toDigits 16 n.toNat).asString
  else "x" ++ (Nat.toDigits 16 (-n).toNat).asString

/-! ## Data model (`models.py`) -/

/-- A signal (`models.py` class `Signal`).  Change timestamps are the parsed
Python ints, values the verbatim strings. -/
structure Signal where
  identifier : String
  name : String
  width : ℤ := 1
  scope : String := ""
  changes : List (ℤ × String) := []
  visible : Bool := true
  color : String := "#00ff00"
deriving Repr, DecidableEq

/-- `Signal.add_change`. -/
def Signal.add_change (s : Signal) (timestamp : ℤ) (value : String) : Signal :=
  { s with changes := s.changes ++ [(timestamp, value)] }

/-- `Signal.get_full_name`. -/
def Signal.get_full_name (s : Signal) : String :=
  if s.scope ≠ "" then s.scope ++ "." ++ s.name else s.name

/-- `Signal.get_edges`. -/
def Signal.get_edges (s : Signal) : List ℤ := s.changes.map Prod.fst

/-- The loop of `Signal.get_value_at`: walk the changes, remembering the last
value whose timestamp is not beyond the query, stopping at the first change
past it. -/
def getValueLoop (timestamp : ℤ) (value : Option String) : List (ℤ × String) → Option String
  | [] => value
  | (ts, val) :: rest => if ts > timestamp then value else getValueLoop timestamp (some val) rest

/-- `Signal.get_value_at`. -/
def Signal.get_value_at (s : Signal) (timestamp : ℤ) : Option String :=
  if s.changes = [] then none else getValueLoop timestamp none s.changes

/-- A time marker (`models.py` class `Marker`).  Timestamps are rationals
because dragging stores the float coming out of `_x_to_time`. -/
structure Marker where
  timestamp : ℚ
  label : String := ""
  color : String := "red"
  selected : Bool := false
  dragging : Bool := false
deriving Repr, DecidableEq

/-- The time cursor (`models.py` class `Cursor`). -/
structure Cursor where
  timestamp : ℚ := 0
  visible : Bool := true
  dragging : Bool := false
deriving Repr, DecidableEq

/-- Container for all waveform data (`models.py` class `WaveformData`).
The Python `signals` dict (insertion ordered, keyed by identifier) is an
association list.  The derived `scope_hierarchy` cache is not modelled: no
modelled operation reads it. -/
structure WaveformData where
  timescale : String := "1ns"
  signals : List (String × Signal) := []
  markers : List Marker := []
  max_timestamp : ℤ := 0
  cursor : Cursor := {}
  time_base : String := "auto"
  display_order : List String := []
deriving Repr, DecidableEq

/-- Insertion-ordered dict update: a present key is overwritten in place,
a new key is appended. -/
def dictInsert (m : List (String × Signal)) (k : String) (v : Signal) : List (String × Signal) :=
  if m.any (fun kv => kv.1 = k) then m.map (fun kv => if kv.1 = k then (k, v) else kv)
  else m ++ [(k, v)]

/-- `WaveformData.add_signal` (without the unread `scope_hierarchy` update). -/
def WaveformData.add_signal (wd : WaveformData) (s : Signal) : WaveformData :=
  { wd with signals := dictInsert wd.signals s.identifier s }

/-- `WaveformData.get_signal_by_identifier` (`dict.get`). -/
def WaveformData.get_signal_by_identifier (wd : WaveformData) (id : String) : Option Signal :=
  (wd.signals.find? (fun kv => kv.1 = id)).map Prod.snd

/-- `WaveformData.get_signal_by_name`: first signal, in dict insertion order,
whose full name matches. -/
def WaveformData.get_signal_by_name (wd : WaveformData) (full : String) : Option Signal :=
  (wd.signals.find? (fun kv => kv.2.get_full_name = full)).map Prod.snd

/-- Comparison used by `sorted(..., key=lambda s: (s.scope, s.name))`:
lexicographic on the pair of strings. -/
def signalLe (a b : Signal) : Bool :=
  decide (a.scope < b.scope) || (decide (a.scope = b.scope) && decide (a.name ≤ b.name))

/-- `WaveformData.get_all_signals`: values sorted (stably) by scope then name. -/
def WaveformData.get_all_signals (wd : WaveformData) : List Signal :=
  pySort signalLe (wd.signals.map Prod.snd)

/-- `markers.sort(key=lambda m: m.timestamp)`: re-sort ascending by
timestamp (Python `list.sort` is a stable sort). -/
def sortMarkers (l : List Marker) : List Marker :=
  pySort (fun a b => decide (a.timestamp ≤ b.timestamp)) l

/-- `WaveformData.add_marker`. -/
def WaveformData.add_marker (wd : WaveformData) (m : Marker) : WaveformData :=
  { wd with markers := sortMarkers (wd.markers ++ [m]) }

/-- `WaveformData.update_max_timestamp`. -/
def WaveformData.update_max_timestamp (wd : WaveformData) (timestamp : ℤ) : WaveformData :=
  if timestamp > wd.max_timestamp then { wd with max_timestamp := timestamp } else wd

/-- Python `sorted(set(...))` on integers: distinct values in ascending order. -/
def pySortedSet (l : List ℤ) : List ℤ := pySort (fun a b : ℤ => decide (a ≤ b)) l.dedup

/-- `WaveformData.get_all_edges`: sorted, de-duplicated union of change
timestamps across visible signals. -/
def WaveformData.get_all_edges (wd : WaveformData) : List ℤ :=
  pySortedSet (((wd.get_all_signals.filter (fun s => s.visible)).map Signal.get_edges).flatten)

/-! ## VCD parser (`parser.py`) -/

/-- Python exceptions that matter to the parsing contract. -/
inductive PyErr where
  | valueError
  | ioError
  | parseError
deriving Repr, DecidableEq

/-- The parser's running state (`VCDParser.__init__`). -/
structure PState where
  data : WaveformData := {}
  current_scope : List String := []
  current_timestamp : ℤ := 0
deriving Repr, DecidableEq

/-- Python `"$end" in line` (substring test, on the raw line). -/
def containsEnd (line : String) : Bool :=
  go line.toList
where
  go : List Char → Bool
    | [] => charsPrefix "$end".toList []
    | c :: cs => charsPrefix "$end".toList (c :: cs) || go cs

/-- First match of the regex `\d+\s*\w+` in a character list, with Python
`re.search` semantics: positions are tried left to right; at a position
starting with a digit the greedy match is the maximal digit run, then the
maximal whitespace run, then a nonempty maximal word-character run; when no
word character follows, backtracking (`\w` also matches digits) still accepts
a digit run of length at least two.  (In the failing one-digit branch the
next digit run is empty, so resuming the scan at `rest` is resuming it right
after the digit.) -/
def reSearchNum : List Char → Option (List Char)
  | [] => none
  | c :: rest =>
    if c.isDigit then
      let ds := c :: rest.takeWhile Char.isDigit
      let r1 := rest.dropWhile Char.isDigit
      let sp := r1.takeWhile isSpaceChar
      let r2 := r1.dropWhile isSpaceChar
      let ws := r2.takeWhile isWordChar
      if ws = [] then
        if 2 ≤ ds.length then some ds else reSearchNum rest
      else some (ds ++ sp ++ ws)
    else reSearchNum rest

/-- `VCDParser._parse_timescale`, state part: the timescale is taken from the
first `\d+\s*\w+` match on the current (stripped) line, else on the next
line if one exists. -/
def parseTimescaleUpdate (st : PState) (line : String) (rest : List String) : PState :=
  match reSearchNum line.toList with
  | some m => { st with data := { st.data with timescale := pyStrip m.asString } }
  | none =>
    match rest with
    | next :: _ =>
      match reSearchNum (pyStrip next).toList with
      | some m => { st with data := { st.data with timescale := pyStrip m.asString } }
      | none => st
    | [] => st

/-- `VCDParser._parse_scope`: push the third token, if present. -/
def parseScopeLine (st : PState) (line : String) : PState :=
  let parts := pySplit line
  if parts.length ≥ 3 then { st with current_scope := st.current_scope ++ [parts.getD 2 ""] }
  else st

/-- `VCDParser._pop_scope`: pop, no-op on an empty stack. -/
def popScope (st : PState) : PState :=
  { st with current_scope := st.current_scope.dropLast }

/-- `VCDParser._parse_var`, state part: with at least five tokens, the width
is parsed with a bare `int(...)` — an unparseable width raises `ValueError`,
modelled as `Except.error` — and the new signal is registered under the
current scope joined with dots. -/
def parseVarLine (st : PState) (line : String) : Except PyErr PState :=
  let parts := pySplit line
  if parts.length ≥ 5 then
    match pyInt (parts.getD 2 "") with
    | none => .error .valueError
    | some width =>
      let identifier := parts.getD 3 ""
      let name := parts.getD 4 ""
      let scope := String.intercalate "." st.current_scope
      let signal : Signal := { identifier := identifier, name := name, width := width,
                               scope := scope }
      .ok { st with data := st.data.add_signal signal }
  else .ok st

/-- `VCDParser._parse_timestamp`, state part: `int` of the line after `#`;
a `ValueError` is caught and ignored. -/
def parseTimestampLine (st : PState) (line : String) : PState :=
  match pyInt (pyDrop line 1) with
  | some t =>
    { st with current_timestamp := t, data := st.data.update_max_timestamp t }
  | none => st

/-- Record a value change on the signal with the given identifier; an unknown
identifier is silently dropped (`if signal:` in the source). -/
def addChange (st : PState) (identifier : String) (value : String) : PState :=
  match st.data.get_signal_by_identifier identifier with
  | none => st
  | some _ =>
    { st with data :=
        { st.data with signals := st.data.signals.map (fun kv =>
            if kv.1 = identifier then (kv.1, kv.2.add_change st.current_timestamp value)
            else kv) } }

/-- `VCDParser._parse_value_change` on an already stripped line. -/
def parseValueChange (st : PState) (line : String) : PState :=
  match line.toList with
  | [] => st
  | c :: restc =>
    if c = '0' || c = '1' || c = 'x' || c = 'z' || c = 'X' || c = 'Z' then
      if restc ≠ [] then addChange st restc.asString (String.singleton c) else st
    else if c = 'b' || c = 'B' then
      let parts := pySplit line
      if parts.length ≥ 2 then addChange st (parts.getD 1 "") (pyDrop (parts.getD 0 "") 1)
      else st
    else if c = 'r' || c = 'R' then
      let parts := pySplit line
      if parts.length ≥ 2 then addChange st (parts.getD 1 "") (pyDrop (parts.getD 0 "") 1)
      else st
    else st

/-- `VCDParser._parse_lines`: the line loop, threading the header flag and
propagating the uncaught `ValueError` of `_parse_var`.  The index jump
`i = self._skip_to_end(lines, i)` is rendered as a skipping mode: after a
directive handled by `_skip_to_end`, lines are consumed without
interpretation until one containing `$end` has passed (none is consumed when
the directive's own line already contains it). -/
def parseLines (st : PState) (inHeader : Bool) (skipping : Bool) :
    List String → Except PyErr PState
  | [] => .ok st
  | cur :: rest =>
    if skipping then
      parseLines st inHeader (!containsEnd cur) rest
    else
      let line := pyStrip cur
      if line = "" then parseLines st inHeader false rest
      else if pyStartsWith line "$" then
        if pyStartsWith line "$timescale" then
          parseLines (parseTimescaleUpdate st line rest) inHeader (!containsEnd cur) rest
        else if pyStartsWith line "$scope" then
          parseLines (parseScopeLine st line) inHeader false rest
        else if pyStartsWith line "$upscope" then
          parseLines (popScope st) inHeader false rest
        else if pyStartsWith line "$var" then
          match parseVarLine st line with
          | .error e => .error e
          | .ok st' => parseLines st' inHeader (!containsEnd cur) rest
        else if pyStartsWith line "$enddefinitions" then
          parseLines st false false rest
        else
          parseLines st inHeader (!containsEnd cur) rest
      else if pyStartsWith line "#" then
        parseLines (parseTimestampLine st line) inHeader false rest
      else if !inHeader then
        parseLines (parseValueChange st line) inHeader false rest
      else
        parseLines st inHeader false rest

/-- `VCDParser.parse_file` after the file has been read into lines: fresh
state, run the loop, return the data.  (The only other failure of the Python
function is the `IOError` of `open`, outside this embedding.) -/
def parseVCD (lines : List String) : Except PyErr WaveformData :=
  (parseLines {} true false lines).map PState.data

/-! ## Temporal view (`canvas.py`) -/

/-- `WaveformCanvas.left_margin`. -/
def left_margin : ℤ := 200

/-- `WaveformCanvas._time_to_x`: `left_margin + int(time * time_scale)` —
Python `int()` truncates toward zero. -/
def timeToX (scale t : ℚ) : ℤ := left_margin + pyTrunc (t * scale)

/-- `WaveformCanvas._x_to_time`. -/
def xToTime (scale x : ℚ) : ℚ := (x - (left_margin : ℚ)) / scale

/-- `WaveformCanvas._format_bus_value`. -/
def format_bus_value (value : String) : String :=
  if value = "" ∨ value ∈ (["x", "X", "z", "Z"] : List String) then pyUpper value
  else if value.length > 4 then
    match pyIntBase2 value with
    | some n => "0x" ++ pyUpper (hexRepr n)
    | none => value
  else value

/-- One comparison step of `min(edges, key=lambda e: abs(e - time))`: keep
the earlier element unless the later one has a strictly smaller key. -/
def minByDistStep (t : ℚ) (best c : ℤ) : ℤ :=
  if pyAbs ((c : ℚ) - t) < pyAbs ((best : ℚ) - t) then c else best

/-- Python `min(edges, key=lambda e: abs(e - time))`: the first element
attaining the minimal key (`min` keeps the earlier element on ties). -/
def pyMinByDist (t : ℚ) : List ℤ → Option ℤ
  | [] => none
  | e :: rest => some (rest.foldl (minByDistStep t) e)

/-- `WaveformCanvas._snap_to_edge` with the default threshold argument
(5 pixels converted to time units through the scale). -/
def snapToEdge (wd : WaveformData) (scale : ℚ) (time : ℚ) : ℚ :=
  let threshold : ℚ := 5 / scale
  match pyMinByDist time wd.get_all_edges with
  | none => time
  | some closest => if pyAbs ((closest : ℚ) - time) ≤ threshold then (closest : ℚ) else time

/-- `WaveformViewer.zoom_out` restricted to its effect on the scale: divide
by 1.5, floor-clamped at `50 / max_timestamp`; a no-op when
`max_timestamp ≤ 0` (both constants are exact binary floats). -/
def zoomOut (maxT : ℤ) (scale : ℚ) : ℚ :=
  if 0 < maxT then
    let new_scale := scale / (3 / 2)
    let min_scale := 50 / (maxT : ℚ)
    if new_scale ≥ min_scale then new_scale else min_scale
  else scale

/-! ## Interaction controller (`canvas.py` mouse handlers) -/

/-- Closed set of drag targets behind `dragged_object`
(`None`, `"cursor"`, `"marker"`, `"pan"`); the dragged marker reference is
its index in the marker list. -/
inductive DragState where
  | draggingCursor
  | draggingMarker (i : ℕ)
  | panning
deriving Repr, DecidableEq

/-- The 10-pixel hit test of `_on_mouse_down` against a marker's projected
pixel. -/
def markerHit (scale x : ℚ) (m : Marker) : Bool :=
  decide (pyAbs (x - ((timeToX scale m.timestamp : ℤ) : ℚ)) < 10)

/-- The marker loop of `_on_mouse_down`: the first marker within 10 pixels
becomes the drag target, its `dragging` flag is set and its `selected` flag
toggled; the result carries the updated list and the index. -/
def markerScan (scale x : ℚ) : List Marker → Option (List Marker × ℕ)
  | [] => none
  | m :: rest =>
    if markerHit scale x m then
      some (({ m with dragging := true, selected := !m.selected }) :: rest, 0)
    else
      match markerScan scale x rest with
      | some (rest', i) => some (m :: rest', i + 1)
      | none => none

/-- Result of a pointer-down event: the entered drag state and the mutated
data (cursor `dragging` flag, marker `dragging`/`selected` flags). -/
structure MouseDownResult where
  drag : DragState
  data : WaveformData
deriving Repr, DecidableEq

/-- `WaveformCanvas._on_mouse_down` (the Tk focus/cursor-shape calls and the
pan bookkeeping coordinates are outside the model).  The Python guard
`if self.waveform_data.cursor and ...visible` reduces to the visibility
test: the `cursor` field always holds an object, which is truthy. -/
def onMouseDown (wd : WaveformData) (scale x : ℚ) : MouseDownResult :=
  if wd.cursor.visible = true ∧
      pyAbs (x - ((timeToX scale wd.cursor.timestamp : ℤ) : ℚ)) < 10 then
    { drag := .draggingCursor,
      data := { wd with cursor := { wd.cursor with dragging := true } } }
  else
    match markerScan scale x wd.markers with
    | some (ms', i) => { drag := .draggingMarker i, data := { wd with markers := ms' } }
    | none => { drag := .panning, data := wd }

/-- Overwrite the timestamp of the marker at an index (the mutation
`self.dragged_marker.timestamp = time` through the held reference). -/
def setMarkerTime : List Marker → ℕ → ℚ → List Marker
  | [], _, _ => []
  | m :: rest, 0, t => { m with timestamp := t } :: rest
  | m :: rest, i + 1, t => m :: setMarkerTime rest i t

/-- The `dragged_object == "marker"` branch of `_on_mouse_drag`: convert the
pixel to time, clamp to `[0, max_timestamp]`, snap to edges unless Alt is
held, write the timestamp and re-sort the marker list. -/
def onMouseDragMarker (wd : WaveformData) (scale : ℚ) (alt : Bool) (i : ℕ) (canvasX : ℚ) :
    WaveformData :=
  let time := xToTime scale canvasX
  let time := max 0 (min (wd.max_timestamp : ℚ) time)
  let time := if !alt then snapToEdge wd scale time else time
  { wd with markers := sortMarkers (setMarkerTime wd.markers i time) }

/-! ## Concrete fixtures -/

/-- The end-to-end example VCD text of spec §8, as lines. -/
def exampleLines : List String :=
  ["$timescale 1ns $end",
   "$scope module top $end",
   "$var wire 1 ! clk $end",
   "$var wire 4 \x22 data $end",
   "$upscope $end",
   "$enddefinitions $end",
   "#0",
   "0!",
   "b0000 \x22",
   "#5",
   "1!",
   "b1010 \x22"]

/-- The same text with the first `$var` width made unparseable, the
malformed-directive probe of the error-handling contract. -/
def malformedVarLines : List String :=
  ["$timescale 1ns $end",
   "$scope module top $end",
   "$var wire xyz ! clk $end",
   "$var wire 4 \x22 data $end",
   "$upscope $end",
   "$enddefinitions $end",
   "#0",
   "0!",
   "b0000 \x22"]

/-- A trace whose single visible signal has edges at 10, 50 and 100, the
edge-snapping example of spec §8. -/
def wdEdges : WaveformData :=
  { signals := [("a", { identifier := "a", name := "sig",
                        changes := [(10, "0"), (50, "1"), (100, "0")] })],
    max_timestamp := 100 }

/-- A trace whose cursor is hidden while the pointer is exactly over the
cursor's projected pixel: the probe for the visibility guard of
`_on_mouse_down`. -/
def wdHiddenCursor : WaveformData :=
  { cursor := { timestamp := 0, visible := false }, max_timestamp := 10 }

/-- A trace with a visible cursor at time 0 and one marker at time 50,
used to witness the pointer-down dispatch. -/
def wdPointer : WaveformData :=
  { cursor := { timestamp := 0 },
    markers := [{ timestamp := 50, label := "M1", color := "cyan" }],
    max_timestamp := 100 }

/-- A clock signal with two changes, used to witness value lookup. -/
def sigClk : Signal :=
  { identifier := "!", name := "clk", scope := "top", changes := [(0, "0"), (5, "1")] }

/-! ## Supporting lemmas -/

theorem pyAbs_eq_abs (q : ℚ) : pyAbs q = |q| := by
  unfold pyAbs
  rcases lt_or_le q 0 with h | h
  · rw [if_pos h, abs_of_neg h]
  · rw [if_neg (not_lt.2 h), abs_of_nonneg h]

theorem pyTrunc_eq_floor {q : ℚ} (h : 0 ≤ q) : pyTrunc q = ⌊q⌋ := by
  unfold pyTrunc
  rw [if_pos h]

theorem mem_orderedInsert {α : Type} (le : α → α → Bool) (a x : α) :
    ∀ l : List α, x ∈ orderedInsert le a l → x = a ∨ x ∈ l := by
  intro l
  induction l with
  | nil => simp [orderedInsert]
  | cons b l ih =>
    simp only [orderedInsert]
    split
    · intro hx
      rcases List.mem_cons.1 hx with h | h
      · exact Or.inl h
      · exact Or.inr h
    · intro hx
      rcases List.mem_cons.1 hx with h | h
      · exact Or.inr (h ▸ List.mem_cons_self b l)
      · rcases ih h with h' | h'
        · exact Or.inl h'
        · exact Or.inr (List.mem_cons_of_mem b h')

theorem pairwise_orderedInsert {α : Type} (le : α → α → Bool)
    (htot : ∀ a b, le a b = true ∨ le b a = true)
    (htrans : ∀ a b c, le a b = true → le b c = true → le a c = true) (a : α) :
    ∀ l : List α, l.Pairwise (fun x y => le x y = true) →
      (orderedInsert le a l).Pairwise (fun x y => le x y = true) := by
  intro l
  induction l with
  | nil => simp [orderedInsert]
  | cons b l ih =>
    intro hp
    rcases List.pairwise_cons.1 hp with ⟨hb, hl⟩
    simp only [orderedInsert]
    split
    · rename_i hab
      refine List.Pairwise.cons ?_ hp
      intro x hx
      rcases List.mem_cons.1 hx with h | h
      · exact h ▸ hab
      · exact htrans a b x hab (hb x h)
    · rename_i hab
      refine List.Pairwise.cons ?_ (ih hl)
      intro x hx
      rcases mem_orderedInsert le a x l hx with h | h
      · rcases htot a b with h' | h'
        · exact absurd h' hab
        · exact h ▸ h'
      · exact hb x h

theorem pairwise_pySort {α : Type} (le : α → α → Bool)
    (htot : ∀ a b, le a b = true ∨ le b a = true)
    (htrans : ∀ a b c, le a b = true → le b c = true → le a c = true) :
    ∀ l : List α, (pySort le l).Pairwise (fun x y => le x y = true) := by
  intro l
  induction l with
  | nil => simp [pySort]
  | cons a l ih =>
    exact pairwise_orderedInsert le htot htrans a (pySort le l) ih

/-- Ordering predicate of the marker list. -/
def markersSorted (l : List Marker) : Prop :=
  l.Pairwise (fun a b => a.timestamp ≤ b.timestamp)

theorem sortMarkers_sorted (l : List Marker) : markersSorted (sortMarkers l) := by
  have h := pairwise_pySort (fun a b : Marker => decide (a.timestamp ≤ b.timestamp))
    (fun a b => by
      rcases le_total a.timestamp b.timestamp with h | h
      · exact Or.inl (decide_eq_true h)
      · exact Or.inr (decide_eq_true h))
    (fun a b c hab hbc => decide_eq_true (le_trans (of_decide_eq_true hab) (of_decide_eq_true hbc)))
    l
  exact h.imp (fun hx => of_decide_eq_true hx)

theorem foldlMin_spec (t : ℚ) :
    ∀ (l : List ℤ) (a : ℤ),
      (l.foldl (minByDistStep t) a = a ∨ l.foldl (minByDistStep t) a ∈ l) ∧
      pyAbs (((l.foldl (minByDistStep t) a : ℤ) : ℚ) - t) ≤ pyAbs ((a : ℚ) - t) ∧
      ∀ c ∈ l, pyAbs (((l.foldl (minByDistStep t) a : ℤ) : ℚ) - t) ≤ pyAbs ((c : ℚ) - t) := by
  intro l
  induction l with
  | nil => exact fun a => ⟨Or.inl rfl, le_refl _, by simp⟩
  | cons x l ih =>
    intro a
    simp only [List.foldl_cons]
    have hkey : pyAbs ((minByDistStep t a x : ℚ) - t) ≤ pyAbs ((a : ℚ) - t) ∧
        pyAbs ((minByDistStep t a x : ℚ) - t) ≤ pyAbs ((x : ℚ) - t) := by
      unfold minByDistStep
      split
      · rename_i h
        exact ⟨le_of_lt h, le_refl _⟩
      · rename_i h
        exact ⟨le_refl _, not_lt.1 h⟩
    have hmem' : minByDistStep t a x = x ∨ minByDistStep t a x = a := by
      unfold minByDistStep
      split
      · exact Or.inl rfl
      · exact Or.inr rfl
    refine ⟨?_, ?_, ?_⟩
    · rcases (ih (minByDistStep t a x)).1 with h | h
      · rcases hmem' with h' | h'
        · refine Or.inr ?_
          rw [h, h']
          exact List.mem_cons_self x l
        · exact Or.inl (h.trans h')
      · exact Or.inr (List.mem_cons_of_mem x h)
    · exact le_trans (ih (minByDistStep t a x)).2.1 hkey.1
    · intro c hc
      rcases List.mem_cons.1 hc with h | h
      · rw [h]
        exact le_trans (ih (minByDistStep t a x)).2.1 hkey.2
      · exact (ih (minByDistStep t a x)).2.2 c h

theorem getValueLoop_eq (t : ℤ) :
    ∀ (l : List (ℤ × String)) (acc : Option String),
      l.Pairwise (fun a b => a.1 ≤ b.1) →
      getValueLoop t acc l =
        match (l.filter (fun c => decide (c.1 ≤ t))).getLast? with
        | some c => some c.2
        | none => acc := by
  intro l
  induction l with
  | nil => intro acc _; rfl
  | cons hd l ih =>
    intro acc hp
    rcases List.pairwise_cons.1 hp with ⟨hhd, hl⟩
    by_cases h : hd.1 > t
    · have hfilter : (hd :: l).filter (fun c => decide (c.1 ≤ t)) = [] := by
        rw [List.filter_eq_nil_iff]
        intro c hc
        rcases List.mem_cons.1 hc with h' | h'
        · subst h'
          simp [not_le.2 h]
        · have : hd.1 ≤ c.1 := hhd c h'
          simp [not_le.2 (lt_of_lt_of_le h this)]
      rcases hd with ⟨ts, v⟩
      rw [hfilter]
      simp only [getValueLoop, if_pos h, List.getLast?_nil]
    · rcases hd with ⟨ts, v⟩
      have h' : ts ≤ t := not_lt.1 h
      simp only [getValueLoop, if_neg h]
      rw [ih (some v) hl]
      have hfc : ((ts, v) :: l).filter (fun c => decide (c.1 ≤ t)) =
          (ts, v) :: l.filter (fun c => decide (c.1 ≤ t)) := by
        simp [List.filter_cons, h']
      rw [hfc]
      rcases hfl : l.filter (fun c => decide (c.1 ≤ t)) with _ | ⟨c, cs⟩
      · rw [hfl]
        simp
      · rw [hfl]
        cases hgl : (c :: cs).getLast? with
        | none => simp at hgl
        | some d => rw [List.getLast?_cons_cons, hgl]

theorem markerScan_eq_none (scale x : ℚ) :
    ∀ l : List Marker, (∀ m ∈ l, markerHit scale x m = false) →
      markerScan scale x l = none := by
  intro l
  induction l with
  | nil => intro _; rfl
  | cons m l ih =>
    intro h
    have hm : markerHit scale x m = false := h m (List.mem_cons_self m l)
    simp only [markerScan, hm, Bool.false_eq_true, if_false]
    rw [ih (fun m' hm' => h m' (List.mem_cons_of_mem m hm'))]

theorem markerScan_first (scale x : ℚ) :
    ∀ (l : List Marker) (i : ℕ) (m : Marker),
      l[i]? = some m → markerHit scale x m = true →
      (∀ j, j < i → ∀ mj, l[j]? = some mj → markerHit scale x mj = false) →
      markerScan scale x l =
        some (l.take i ++ ({ m with dragging := true, selected := !m.selected } :: l.drop (i + 1)), i) := by
  intro l
  induction l with
  | nil => intro i m h; simp at h
  | cons hd l ih =>
    intro i m hget hhit hbefore
    cases i with
    | zero =>
      have hm : hd = m := by simpa using hget
      subst hm
      simp only [markerScan, hhit, if_true, List.take_zero, List.drop_succ_cons,
        List.drop_zero, List.nil_append]
    | succ i =>
      have hhd : markerHit scale x hd = false := by
        exact hbefore 0 (Nat.zero_lt_succ i) hd (by simp)
      have hget' : l[i]? = some m := by simpa using hget
      have hbefore' : ∀ j, j < i → ∀ mj, l[j]? = some mj → markerHit scale x mj = false := by
        intro j hj mj hmj
        exact hbefore (j + 1) (Nat.succ_lt_succ hj) mj (by simpa using hmj)
      simp only [markerScan, hhd, Bool.false_eq_true, if_false]
      rw [ih i m hget' hhit hbefore']
      simp [List.take_succ_cons, List.drop_succ_cons]

/-! ## Claims -/

/-- C1: the parser is claimed to confine its failures to `IOError`/`ParseError`
and to recover from a `$var` directive with an unparseable width by skipping
the line.  The code instead lets the `ValueError` of `int(parts[2])` escape
`parse`: on the probe input containing `$var wire xyz ! clk $end` (and
already on that single line) parsing aborts with the uncaught `ValueError`
instead of skipping the directive and returning a trace. -/
theorem parse_var_bad_width_raises_valueError :
    parseVCD malformedVarLines = .error PyErr.valueError ∧
    parseVCD ["$var wire xyz ! clk $end"] = .error PyErr.valueError :=
  ⟨rfl, rfl⟩

/-- C2: parsing the example VCD text of spec §8 yields timescale `"1ns"`,
exactly two signals, full names `top.clk` (width 1, changes
`[(0,"0"),(5,"1")]`) and `top.data` (width 4, changes
`[(0,"0000"),(5,"1010")]`), and `max_timestamp = 5`. -/
theorem example_vcd_parses_as_specified :
    (parseVCD exampleLines).map (fun wd => wd.timescale) = .ok "1ns" ∧
    (parseVCD exampleLines).map (fun wd => wd.signals.length) = .ok 2 ∧
    (parseVCD exampleLines).map (fun wd =>
      (wd.get_signal_by_name "top.clk").map (fun s => (s.width, s.changes))) =
      .ok (some (1, [(0, "0"), (5, "1")])) ∧
    (parseVCD exampleLines).map (fun wd =>
      (wd.get_signal_by_name "top.data").map (fun s => (s.width, s.changes))) =
      .ok (some (4, [(0, "0000"), (5, "1010")])) ∧
    (parseVCD exampleLines).map (fun wd => wd.max_timestamp) = .ok 5 :=
  ⟨rfl, rfl, rfl, rfl, rfl⟩

/-- C3, counterexample: the claim states
`to_pixel(t) = margin + round(t * scale)` with rounding to the nearest
integer; at `t = 1`, `scale = 7/4` the code computes
`margin + int(7/4) = margin + 1` while the nearest integer to `7/4` is `2`. -/
theorem time_to_pixel_is_not_nearest_rounding :
    timeToX (7/4) 1 ≠ left_margin + round ((1 : ℚ) * (7/4)) := by
  unfold timeToX pyTrunc left_margin
  rw [if_pos (by norm_num : (0:ℚ) ≤ 1 * (7/4)), round_eq]
  norm_num

/-- C3, amended: `to_pixel(t) = margin + int(t * scale)` where `int`
truncates toward zero, hence equals `margin + ⌊t * scale⌋` for `t ≥ 0` and
`scale > 0`; `to_time(x) = (x - margin) / scale` exactly as claimed. -/
theorem time_to_pixel_truncates (scale t x : ℚ) (hs : 0 < scale) (ht : 0 ≤ t) :
    timeToX scale t = left_margin + ⌊t * scale⌋ ∧
    xToTime scale x = (x - (left_margin : ℚ)) / scale := by
  refine ⟨?_, rfl⟩
  unfold timeToX
  rw [pyTrunc_eq_floor (mul_nonneg ht hs.le)]

theorem time_to_pixel_truncates_witness :
    timeToX 2 3 = left_margin + ⌊(3 : ℚ) * 2⌋ ∧
    xToTime 2 7 = (7 - (left_margin : ℚ)) / 2 :=
  time_to_pixel_truncates 2 3 7 (by norm_num) (by norm_num)

/-- C4: for every `scale > 0` and `t ∈ [0, max_timestamp]`, the round trip
`to_time(to_pixel(t))` differs from `t` by at most `1/scale`. -/
theorem to_time_to_pixel_roundtrip (scale t maxT : ℚ) (hs : 0 < scale)
    (ht0 : 0 ≤ t) (htm : t ≤ maxT) :
    |xToTime scale ((timeToX scale t : ℤ) : ℚ) - t| ≤ 1 / scale := by
  have hne : scale ≠ 0 := ne_of_gt hs
  have hu : (0 : ℚ) ≤ t * scale := mul_nonneg ht0 hs.le
  have hx : xToTime scale ((timeToX scale t : ℤ) : ℚ) = (⌊t * scale⌋ : ℚ) / scale := by
    unfold xToTime timeToX left_margin
    rw [pyTrunc_eq_floor hu]
    push_cast
    ring
  rw [hx, abs_le]
  have hfle : ((⌊t * scale⌋ : ℤ) : ℚ) ≤ t * scale := Int.floor_le _
  have hflt : t * scale - 1 < ((⌊t * scale⌋ : ℤ) : ℚ) := Int.sub_one_lt_floor _
  have h3 : (⌊t * scale⌋ : ℚ) / scale ≤ (t * scale) / scale :=
    (div_le_div_iff_of_pos_right hs).2 hfle
  have h1 : (t * scale - 1) / scale < (⌊t * scale⌋ : ℚ) / scale :=
    (div_lt_div_iff_of_pos_right hs).2 hflt
  have h4 : (t * scale) / scale = t := by field_simp
  have h2 : (t * scale - 1) / scale = t - 1 / scale := by field_simp
  have h5 : (0 : ℚ) ≤ 1 / scale := by positivity
  constructor
  · linarith
  · linarith

theorem to_time_to_pixel_roundtrip_witness :
    |xToTime 2 ((timeToX 2 3 : ℤ) : ℚ) - 3| ≤ 1 / 2 :=
  to_time_to_pixel_roundtrip 2 3 5 (by norm_num) (by norm_num) (by norm_num)

/-- C6, counterexample: the claim states that a value consisting purely of
`x`/`z` characters is uppercased, giving `"xx" → "XX"` and
`"zzzz" → "ZZZZ"`; the code only special-cases the four one-character
strings `x`, `X`, `z`, `Z`, so `"xx"` and `"zzzz"` (length ≤ 4) are
rendered verbatim in lowercase. -/
theorem bus_value_multichar_xz_not_uppercased :
    format_bus_value "xx" = "xx" ∧ format_bus_value "xx" ≠ "XX" ∧
    format_bus_value "zzzz" = "zzzz" ∧ format_bus_value "zzzz" ≠ "ZZZZ" := by
  refine ⟨rfl, ?_, rfl, ?_⟩ <;> decide

/-- C6, amended: a bit string of length ≤ 4 is rendered literally unless it
is empty or exactly one of the single characters `x`, `X`, `z`, `Z` (which
are uppercased); a longer parseable bit string is rendered as uppercase
hexadecimal with a `0x` prefix (`"10110"` gives `"0x16"`); a longer
unparseable bit string — including multi-character pure-`x`/`z` strings —
is rendered verbatim. -/
theorem bus_value_formatting (s u : String) (h1 : s.length ≤ 4)
    (h2 : s ∉ (["x", "X", "z", "Z"] : List String)) (h3 : s ≠ "")
    (h4 : 4 < u.length) (h5 : pyIntBase2 u = none) :
    format_bus_value s = s ∧ format_bus_value u = u ∧
    format_bus_value "10110" = "0x16" ∧ format_bus_value "101" = "101" ∧
    format_bus_value "x" = "X" ∧ format_bus_value "zzzz" = "zzzz" := by
  refine ⟨?_, ?_, rfl, rfl, rfl, rfl⟩
  · have hA : ¬(s = "" ∨ s ∈ (["x", "X", "z", "Z"] : List String)) := by
      push_neg
      exact ⟨h3, h2⟩
    have hB : ¬(s.length > 4) := not_lt.2 h1
    simp only [format_bus_value, if_neg hA, if_neg hB]
  · have hA : ¬(u = "" ∨ u ∈ (["x", "X", "z", "Z"] : List String)) := by
      intro hcon
      rcases hcon with rfl | hm
      · exact absurd h4 (by decide)
      · simp only [List.mem_cons, List.not_mem_nil, or_false] at hm
        rcases hm with rfl | rfl | rfl | rfl <;> exact absurd h4 (by decide)
    simp only [format_bus_value, if_neg hA, if_pos h4, h5]

theorem bus_value_formatting_witness :
    format_bus_value "abcd" = "abcd" ∧ format_bus_value "xxxxx" = "xxxxx" ∧
    format_bus_value "10110" = "0x16" ∧ format_bus_value "101" = "101" ∧
    format_bus_value "x" = "X" ∧ format_bus_value "zzzz" = "zzzz" :=
  bus_value_formatting "abcd" "xxxxx" (by decide) (by decide) (by decide)
    (by decide) (by decide)

/-- C5: the marker list is sorted ascending by timestamp after every
`add_marker` insertion and after every drag-induced timestamp mutation,
for every starting sorted list and every inserted or dragged marker
(both code paths end in the re-sort of the list). -/
theorem markers_sorted_after_insert_and_drag (wd : WaveformData) (m : Marker)
    (scale x : ℚ) (alt : Bool) (i : ℕ) (hsorted : markersSorted wd.markers) :
    markersSorted (wd.add_marker m).markers ∧
    markersSorted (onMouseDragMarker wd scale alt i x).markers :=
  ⟨sortMarkers_sorted _, sortMarkers_sorted _⟩

theorem markers_sorted_after_insert_and_drag_witness :
    markersSorted (wdPointer.add_marker { timestamp := 10 }).markers ∧
    markersSorted (onMouseDragMarker wdPointer 1 false 0 260).markers :=
  markers_sorted_after_insert_and_drag wdPointer { timestamp := 10 } 1 260 false 0
    (by simp [markersSorted, wdPointer])

theorem zoomOut_ge_min (maxT : ℤ) (s : ℚ) (h : 0 < maxT) :
    50 / (maxT : ℚ) ≤ zoomOut maxT s := by
  simp only [zoomOut, if_pos h]
  split_ifs with h2
  · exact h2
  · exact le_refl _

theorem zoomOut_div (maxT : ℤ) (s : ℚ) (h : 0 < maxT)
    (h2 : 50 / (maxT : ℚ) ≤ s / (3/2)) : zoomOut maxT s = s / (3/2) := by
  simp only [zoomOut, if_pos h]
  rw [if_pos h2]

theorem zoomOut100_floor (s : ℚ) (h : s < 3/4) : zoomOut 100 s = 1/2 := by
  have hc : ¬(50 / ((100 : ℤ) : ℚ) ≤ s / (3/2)) := by
    push_cast
    rw [not_le]
    have hrw : s / (3/2 : ℚ) = s * (2/3) := by ring
    rw [hrw]
    linarith
  simp only [zoomOut, if_pos (by norm_num : (0:ℤ) < 100)]
  rw [if_neg hc]
  norm_num

theorem zoomOut100_fix : zoomOut 100 ((1:ℚ)/2) = 1/2 :=
  zoomOut100_floor (1/2) (by norm_num)

theorem zoomOut100_stays : ∀ m : ℕ, (zoomOut 100)^[m] ((1:ℚ)/2) = 1/2 := by
  intro m
  induction m with
  | zero => rfl
  | succ m ih =>
    rw [Function.iterate_succ_apply, zoomOut100_fix]
    exact ih

theorem zoomOut100_reach :
    ∀ (N : ℕ) (s : ℚ), s < (3/4) * (3/2)^N → ∃ n, (zoomOut 100)^[n] s = 1/2 := by
  intro N
  induction N with
  | zero =>
    intro s hs
    rw [pow_zero, mul_one] at hs
    exact ⟨1, by rw [Function.iterate_one]; exact zoomOut100_floor s hs⟩
  | succ N ih =>
    intro s hs
    by_cases h2 : 50 / ((100 : ℤ) : ℚ) ≤ s / (3/2)
    · have hz : zoomOut 100 s = s / (3/2) := zoomOut_div 100 s (by norm_num) h2
      obtain ⟨n, hn⟩ := ih (s / (3/2)) (by
        have hrw : s / (3/2 : ℚ) = s * (2/3) := by ring
        have hformula : (3/4 : ℚ) * (3/2)^(N+1) * (2/3) = (3/4) * (3/2)^N := by
          rw [pow_succ]
          ring
        rw [hrw, ← hformula]
        linarith)
      exact ⟨n + 1, by rw [Function.iterate_succ_apply, hz]; exact hn⟩
    · refine ⟨1, ?_⟩
      rw [Function.iterate_one]
      simp only [zoomOut, if_pos (by norm_num : (0:ℤ) < 100)]
      rw [if_neg h2]
      norm_num

theorem zoomOut100_converges (s : ℚ) (hs : 1/2 < s) :
    ∃ n, (zoomOut 100)^[n] s = 1/2 := by
  obtain ⟨N, hN⟩ := pow_unbounded_of_one_lt ((4/3) * s) (by norm_num : (1:ℚ) < 3/2)
  exact zoomOut100_reach N s (by linarith)

/-- C7: when `max_timestamp > 0`, zoom-out divides the scale by 1.5 but the
result never drops below `50 / max_timestamp`; with `max_timestamp = 100`,
iterating zoom-out from any scale above `0.5` reaches exactly `0.5` in
finitely many steps, and from `0.5` every further zoom-out stays at `0.5`. -/
theorem zoom_out_floor_clamped (maxT : ℤ) (s s2 : ℚ) (hmax : 0 < maxT)
    (hs2 : 1/2 < s2) :
    50 / (maxT : ℚ) ≤ zoomOut maxT s ∧
    (50 / (maxT : ℚ) ≤ s / (3/2) → zoomOut maxT s = s / (3/2)) ∧
    (∃ n, (zoomOut 100)^[n] s2 = 1/2) ∧
    ∀ m : ℕ, (zoomOut 100)^[m] ((1:ℚ)/2) = 1/2 :=
  ⟨zoomOut_ge_min maxT s hmax, zoomOut_div maxT s hmax,
    zoomOut100_converges s2 hs2, zoomOut100_stays⟩

theorem zoom_out_floor_clamped_witness :
    50 / ((100 : ℤ) : ℚ) ≤ zoomOut 100 2 ∧
    (50 / ((100 : ℤ) : ℚ) ≤ 2 / (3/2) → zoomOut 100 2 = 2 / (3/2)) ∧
    (∃ n, (zoomOut 100)^[n] (2 : ℚ) = 1/2) ∧
    ∀ m : ℕ, (zoomOut 100)^[m] ((1:ℚ)/2) = 1/2 :=
  zoom_out_floor_clamped 100 2 2 (by norm_num) (by norm_num)

/-- C8: with threshold `5/scale`, snapping returns an edge of
`get_all_edges()` at minimal distance from `t` whenever some edge is within
the threshold, and returns `t` unchanged when no edge is; on the concrete
trace with edges `{10, 50, 100}` and scale 1 (threshold 5 time units),
`snap(52) = 50` and `snap(70) = 70`. -/
theorem snap_to_edge_spec (wd : WaveformData) (scale t : ℚ) (hs : 0 < scale) :
    ((∃ e ∈ wd.get_all_edges, |(e : ℚ) - t| ≤ 5 / scale) →
      ∃ e ∈ wd.get_all_edges, snapToEdge wd scale t = (e : ℚ) ∧
        |(e : ℚ) - t| ≤ 5 / scale ∧
        ∀ e' ∈ wd.get_all_edges, |(e : ℚ) - t| ≤ |(e' : ℚ) - t|) ∧
    ((∀ e ∈ wd.get_all_edges, ¬(|(e : ℚ) - t| ≤ 5 / scale)) →
      snapToEdge wd scale t = t) ∧
    snapToEdge wdEdges 1 52 = 50 ∧ snapToEdge wdEdges 1 70 = 70 := by
  have hgen : ∀ hd tl, wd.get_all_edges = hd :: tl →
      tl.foldl (minByDistStep t) hd ∈ wd.get_all_edges ∧
      ∀ e' ∈ wd.get_all_edges,
        |((tl.foldl (minByDistStep t) hd : ℤ) : ℚ) - t| ≤ |(e' : ℚ) - t| := by
    intro hd tl hedges
    have hspec := foldlMin_spec t tl hd
    simp only [pyAbs_eq_abs] at hspec
    constructor
    · rw [hedges]
      rcases hspec.1 with h | h
      · rw [h]
        exact List.mem_cons_self hd tl
      · exact List.mem_cons_of_mem hd h
    · intro e' he'
      rw [hedges] at he'
      rcases List.mem_cons.1 he' with h | h
      · rw [h]
        exact hspec.2.1
      · exact hspec.2.2 e' h
  refine ⟨?_, ?_, ?_, ?_⟩
  · rintro ⟨e0, he0, hd0⟩
    rcases hedges : wd.get_all_edges with _ | ⟨hd, tl⟩
    · rw [hedges] at he0
      simp at he0
    · obtain ⟨hmem, hmin⟩ := hgen hd tl hedges
      rw [hedges] at hmem hmin he0
      have hth : |((tl.foldl (minByDistStep t) hd : ℤ) : ℚ) - t| ≤ 5 / scale :=
        le_trans (hmin e0 he0) hd0
      refine ⟨tl.foldl (minByDistStep t) hd, hmem, ?_, hth, hmin⟩
      unfold snapToEdge
      rw [hedges]
      simp only [pyMinByDist]
      rw [if_pos (by rw [pyAbs_eq_abs]; exact hth)]
  · intro hall
    rcases hedges : wd.get_all_edges with _ | ⟨hd, tl⟩
    · unfold snapToEdge
      rw [hedges]
      simp [pyMinByDist]
    · obtain ⟨hmem, hmin⟩ := hgen hd tl hedges
      have hnth := hall _ hmem
      unfold snapToEdge
      rw [hedges]
      simp only [pyMinByDist]
      rw [if_neg (by rw [pyAbs_eq_abs]; exact hnth)]
  · have hE : wdEdges.get_all_edges = [10, 50, 100] := by decide
    unfold snapToEdge
    rw [hE]
    simp only [pyMinByDist, List.foldl_cons, List.foldl_nil, minByDistStep, pyAbs]
    norm_num
  · have hE : wdEdges.get_all_edges = [10, 50, 100] := by decide
    unfold snapToEdge
    rw [hE]
    simp only [pyMinByDist, List.foldl_cons, List.foldl_nil, minByDistStep, pyAbs]
    norm_num

theorem snap_to_edge_spec_witness :
    (∃ e ∈ wdEdges.get_all_edges, snapToEdge wdEdges 1 52 = (e : ℚ) ∧
      |(e : ℚ) - 52| ≤ 5 / 1 ∧
      ∀ e' ∈ wdEdges.get_all_edges, |(e : ℚ) - 52| ≤ |(e' : ℚ) - 52|) ∧
    snapToEdge wdEdges 1 52 = 50 ∧ snapToEdge wdEdges 1 70 = 70 := by
  have h := snap_to_edge_spec wdEdges 1 52 (by norm_num)
  refine ⟨h.1 ⟨50, by decide, by norm_num⟩, h.2.2.1, h.2.2.2⟩

/-- C9: for a signal whose changes are sorted non-decreasingly by timestamp,
`get_value_at` returns the value of the latest change with timestamp ≤ t
(the last element of the filtered prefix), and `none` when the signal has no
changes or `t` precedes the first change. -/
theorem get_value_at_latest (s : Signal) (t : ℤ)
    (hsorted : s.changes.Pairwise (fun a b => a.1 ≤ b.1)) :
    s.get_value_at t =
      ((s.changes.filter (fun c => decide (c.1 ≤ t))).getLast?).map Prod.snd := by
  have hmatch : ∀ o : Option (ℤ × String),
      (match o with | some c => some c.2 | none => (none : Option String)) =
        o.map Prod.snd := by
    intro o
    cases o <;> rfl
  unfold Signal.get_value_at
  by_cases hch : s.changes = []
  · rw [if_pos hch, hch]
    simp
  · rw [if_neg hch, getValueLoop_eq t s.changes none hsorted]
    exact hmatch _

theorem get_value_at_latest_witness :
    sigClk.get_value_at 3 =
      ((sigClk.changes.filter (fun c => decide (c.1 ≤ 3))).getLast?).map Prod.snd :=
  get_value_at_latest sigClk 3 (by decide)

/-- C10, counterexample: the claim states that a pointer-down within 10
pixels of the cursor's projected pixel always enters `DraggingCursor`, but
the code first requires the cursor to be visible: with a hidden cursor and
the pointer exactly on its pixel, the controller enters `Panning` instead. -/
theorem pointer_down_hidden_cursor_counterexample :
    |(200 : ℚ) - ((timeToX 1 wdHiddenCursor.cursor.timestamp : ℤ) : ℚ)| < 10 ∧
    (onMouseDown wdHiddenCursor 1 200).drag = DragState.panning ∧
    (onMouseDown wdHiddenCursor 1 200).drag ≠ DragState.draggingCursor := by
  have hn : ¬(wdHiddenCursor.cursor.visible = true ∧
      pyAbs ((200 : ℚ) - ((timeToX 1 wdHiddenCursor.cursor.timestamp : ℤ) : ℚ)) < 10) :=
    fun hcon => absurd hcon.1 (by decide)
  have hpan : (onMouseDown wdHiddenCursor 1 200).drag = DragState.panning := by
    unfold onMouseDown
    rw [if_neg hn]
    rfl
  refine ⟨?_, hpan, ?_⟩
  · have h : timeToX 1 wdHiddenCursor.cursor.timestamp = 200 := by
      simp only [wdHiddenCursor, timeToX, pyTrunc, left_margin]
      norm_num
    rw [h]
    norm_num
  · rw [hpan]
    decide

/-- C10, amended: on pointer-down at pixel x, if the cursor is visible and x
is within 10 pixels of its projected pixel the controller enters
`DraggingCursor`; otherwise, if x is within 10 pixels of some marker's
projected pixel, the first such marker in list order enters `DraggingMarker`
with its `selected` flag toggled as an immediate side effect; otherwise the
controller enters `Panning`. -/
theorem pointer_down_dispatch (wd : WaveformData) (scale x : ℚ) :
    (wd.cursor.visible = true →
      |x - ((timeToX scale wd.cursor.timestamp : ℤ) : ℚ)| < 10 →
      (onMouseDown wd scale x).drag = DragState.draggingCursor ∧
      (onMouseDown wd scale x).data.markers = wd.markers) ∧
    (¬(wd.cursor.visible = true ∧
        |x - ((timeToX scale wd.cursor.timestamp : ℤ) : ℚ)| < 10) →
      (∀ i m, wd.markers[i]? = some m → markerHit scale x m = true →
        (∀ j, j < i → ∀ mj, wd.markers[j]? = some mj → markerHit scale x mj = false) →
        (onMouseDown wd scale x).drag = DragState.draggingMarker i ∧
        (onMouseDown wd scale x).data.markers =
          wd.markers.take i ++
            { m with dragging := true, selected := !m.selected } :: wd.markers.drop (i + 1)) ∧
      ((∀ m ∈ wd.markers, markerHit scale x m = false) →
        (onMouseDown wd scale x).drag = DragState.panning ∧
        (onMouseDown wd scale x).data.markers = wd.markers)) := by
  have hcond : (wd.cursor.visible = true ∧
      pyAbs (x - ((timeToX scale wd.cursor.timestamp : ℤ) : ℚ)) < 10) ↔
      (wd.cursor.visible = true ∧
        |x - ((timeToX scale wd.cursor.timestamp : ℤ) : ℚ)| < 10) := by
    rw [pyAbs_eq_abs]
  refine ⟨?_, ?_⟩
  · intro hvis hnear
    unfold onMouseDown
    rw [if_pos (hcond.2 ⟨hvis, hnear⟩)]
    exact ⟨rfl, rfl⟩
  · intro hno
    have hno' : ¬(wd.cursor.visible = true ∧
        pyAbs (x - ((timeToX scale wd.cursor.timestamp : ℤ) : ℚ)) < 10) :=
      fun hcon => hno (hcond.1 hcon)
    constructor
    · intro i m hm hhit hbef
      unfold onMouseDown
      rw [if_neg hno', markerScan_first scale x wd.markers i m hm hhit hbef]
      exact ⟨rfl, rfl⟩
    · intro hnone
      unfold onMouseDown
      rw [if_neg hno', markerScan_eq_none scale x wd.markers hnone]
      exact ⟨rfl, rfl⟩

theorem pointer_down_dispatch_witness :
    (onMouseDown wdPointer 1 203).drag = DragState.draggingCursor ∧
    (onMouseDown wdPointer 1 203).data.markers = wdPointer.markers :=
  (pointer_down_dispatch wdPointer 1 203).1 rfl
    (by
      have h : timeToX 1 wdPointer.cursor.timestamp = 200 := by
        simp only [wdPointer, timeToX, pyTrunc, left_margin]
        norm_num
      rw [h]
      norm_num)

end VCD
